import Mathlib

/-!
Verification development for the neuro_hound triage / deduplication / scoring
pipeline.  The definitions below are shallow embeddings of the Python sources:

  * tools/dedup.py      : item hashing, history partition, history update
  * tools/scoring.py    : deterministic regex scorer (pattern matches are
                          abstracted as a vector of match outcomes)
  * nodes/prefilter.py  : triage ordering of the to-score set
  * nodes/score.py      : per-item semantic scoring with error containment
  * nodes/review.py     : reviewer score adjustments, re-sort, alert recompute
  * tools/sources.py    : source registry pruning and discovery

Python string primitives (.strip(), .lower(), lexicographic <, substring
membership) are embedded as explicit functions on character lists so that
every definition evaluates inside the kernel.
-/

namespace NewsHound

/-- Embedding of Python `str.lower()`: lower-case every character. -/
def lowerStr (s : String) : String := ⟨s.data.map Char.toLower⟩

/-- Embedding of Python `str.strip()`: drop leading and trailing whitespace. -/
def trimStr (s : String) : String :=
  ⟨((s.data.dropWhile Char.isWhitespace).reverse.dropWhile Char.isWhitespace).reverse⟩

/-- Lexicographic comparison of character lists by code point, the order
Python uses for `str < str` (dedup dates and prune cutoffs are ISO strings). -/
def ltChars : List Char → List Char → Bool
  | [], [] => false
  | [], _ :: _ => true
  | _ :: _, [] => false
  | a :: as, b :: bs =>
    if a.toNat < b.toNat then true
    else if b.toNat < a.toNat then false
    else ltChars as bs

/-- Embedding of Python `a < b` on strings. -/
def ltStr (a b : String) : Bool := ltChars a.data b.data

/-- Leading-segment test on character lists (`pat` starts `l`). -/
def chPre : List Char → List Char → Bool
  | [], _ => true
  | _ :: _, [] => false
  | a :: as, b :: bs => decide (a = b) && chPre as bs

/-- Contiguous-substring test on character lists; embeds Python
`pat in s` for strings. -/
def chSub (pat : List Char) : List Char → Bool
  | [] => chPre pat []
  | b :: bs => chPre pat (b :: bs) || chSub pat bs

/-- Stand-in for `hashlib.sha256(key.encode()).hexdigest()[:16]` in
`tools/dedup.py`: a deterministic digest of the key, truncated to 64 bits.
Every claim proved below uses only that the digest is a function of the key,
which is exactly what the real hash provides. -/
def digest16 (s : String) : Nat :=
  s.data.foldl (fun a c => (a * 131 + c.toNat) % (2 ^ 64)) 7

/-- Embedding of `_item_hash` (tools/dedup.py): the key is
`f"{title.strip().lower()}|{url.strip().lower()}"` and the hash is a
deterministic digest of that key. -/
def item_hash (title url : String) : String :=
  toString (digest16 (lowerStr (trimStr title) ++ "|" ++ lowerStr (trimStr url)))

/-- One persisted dedup-history entry (`seen_items.json` value shape). -/
structure HistEntry where
  title : String := ""
  score : Int := 0
  category : String := "unknown"
  first_seen : String := ""
  last_seen : String := ""
  run_count : Nat := 1
deriving DecidableEq

/-- The dedup history: a finite map from content hash to entry, embedded as
an association list with unique keys (Python dict). -/
abbrev History := List (String × HistEntry)

/-- Dictionary lookup (`history.get(h)`). -/
def hfind : History → String → Option HistEntry
  | [], _ => none
  | (k', v) :: rest, k => if k' = k then some v else hfind rest k

/-- Dictionary write (`history[h] = entry`): replace the binding if the key
is present, append it otherwise. -/
def hset : History → String → HistEntry → History
  | [], k, v => [(k, v)]
  | (k', v') :: rest, k, v =>
    if k' = k then (k, v) :: rest else (k', v') :: hset rest k v

/-- A pipeline item: the Python code uses one dictionary that is only ever
augmented with new keys as it moves through the stages; optional fields model
keys that may be absent. -/
structure Item where
  title : String := ""
  url : String := ""
  summary : String := ""
  source : String := ""
  source_id : String := ""
  meta : String := ""
  regex_score : Option Int := none
  hash : Option String := none
  prior_score : Option Int := none
  prior_category : Option String := none
  skipped_reason : Option String := none
  llm_score : Option Int := none
  llm_score_original : Option Int := none
  category : Option String := none
  assessment : Option String := none
  vaporware : Bool := false
  adjusted_by_reviewer : Bool := false
  adjustment_reason : Option String := none
  score : Option Int := none
deriving DecidableEq

/-- RE_EVALUATE_THRESHOLD in tools/dedup.py. -/
def RE_EVALUATE_THRESHOLD : Int := 7

/-- The skip annotation built in `filter_seen`:
`f"Previously scored {prior.get('score', '?')} on {prior.get('last_seen', '?')}"`. -/
def skip_reason (prior : HistEntry) : String :=
  "Previously scored " ++ toString prior.score ++ " on " ++ prior.last_seen

/-- One iteration of the `filter_seen` loop (tools/dedup.py): hash the item,
look it up, and decide its destination (`true` = to_score). -/
def filter_seen_step (history : History) (item : Item) : Item × Bool :=
  match hfind history (item_hash item.title item.url) with
  | none => ({ item with hash := some (item_hash item.title item.url) }, true)
  | some prior =>
    if RE_EVALUATE_THRESHOLD ≤ prior.score then
      ({ item with hash := some (item_hash item.title item.url),
                   prior_score := some prior.score,
                   prior_category := some prior.category }, true)
    else
      ({ item with hash := some (item_hash item.title item.url),
                   skipped_reason := some (skip_reason prior) }, false)

/-- Embedding of `filter_seen` (tools/dedup.py): partition items into
(to_score, skipped), preserving input order in both outputs. -/
def filter_seen (items : List Item) (history : History) : List Item × List Item :=
  match items with
  | [] => ([], [])
  | item :: rest =>
    let p := filter_seen_step history item
    let r := filter_seen rest history
    if p.2 then (p.1 :: r.1, r.2) else (r.1, p.1 :: r.2)

/-- The hash key used by `update_history`:
`item.get("_hash") or _item_hash(...)` (Python `or` also rejects `""`). -/
def hash_key_of (item : Item) : String :=
  match item.hash with
  | some s => if s = "" then item_hash item.title item.url else s
  | none => item_hash item.title item.url

/-- The score stored by `update_history`:
`item.get("llm_score", item.get("score", 0))`. -/
def score_field_of (item : Item) : Int :=
  match item.llm_score with
  | some v => v
  | none =>
    match item.score with
    | some v => v
    | none => 0

/-- The category stored by `update_history`: `item.get("category", "unknown")`. -/
def category_of (item : Item) : String := item.category.getD "unknown"

/-- One iteration of the `update_history` loop (tools/dedup.py): upsert the
entry for one scored item.  `today` is `dt.date.today().isoformat()`. -/
def update_history_one (today : String) (history : History) (item : Item) : History :=
  match hfind history (hash_key_of item) with
  | some existing =>
    hset history (hash_key_of item)
      { existing with
        score := score_field_of item,
        category := category_of item,
        last_seen := today,
        run_count := existing.run_count + 1 }
  | none =>
    hset history (hash_key_of item)
      { title := item.title.take 100,
        score := score_field_of item,
        category := category_of item,
        first_seen := today,
        last_seen := today,
        run_count := 1 }

/-- Embedding of `update_history` (tools/dedup.py). -/
def update_history (today : String) (history : History) (items : List Item) : History :=
  items.foldl (update_history_one today) history

/-- Outcome of the eleven regex tests `regex_score` (tools/scoring.py)
performs on `f"{title}\n{summary}\n{source}"`.  The regex engine itself is
abstracted: each field records whether the corresponding pattern matched, in
the order the source lists them, so every input text induces one value of
this structure. -/
structure RxMatches where
  fih : Bool := false
  pivotal : Bool := false
  fda_ide : Bool := false
  human_implant : Bool := false
  ecog : Bool := false
  spikes : Bool := false
  microstim : Bool := false
  materials : Bool := false
  eeg_headset : Bool := false
  marketing : Bool := false
  wearable : Bool := false
  bci_term : Bool := false
  out_of_scope : Bool := false
  strict : Bool := false
deriving DecidableEq

/-- One HIGH_PATTERNS iteration: `score = max(score, val)` when the pattern
matched. -/
def rstep (c : Bool) (v s : Int) : Int := if c = true then max s v else s

/-- One LOW_PATTERNS (or wearable) iteration: `score = min(score, val)` when
the demotion applies. -/
def dstep (c : Bool) (v s : Int) : Int := if c = true then min s v else s

/-- The HIGH_PATTERNS loop of `regex_score`, starting from the baseline 4,
rules applied in source order. -/
def high_pass (m : RxMatches) : Int :=
  rstep m.materials 6 (rstep m.microstim 7 (rstep m.spikes 8 (rstep m.ecog 8
    (rstep m.human_implant 9 (rstep m.fda_ide 10 (rstep m.pivotal 10
      (rstep m.fih 10 4)))))))

/-- The LOW_PATTERNS loop of `regex_score` followed by the wearable demotion
(`wearable` without a BCI term caps the score at 2). -/
def low_pass (m : RxMatches) (s : Int) : Int :=
  dstep (m.wearable && !m.bci_term) 2 (dstep m.marketing 2 (dstep m.eeg_headset 2 s))

/-- The first hard gate at the end of `regex_score`: an out-of-scope
modality (TMS/tDCS/tACS) at score ≥ 7 without strict scope caps the score
at 6. -/
def oos_gate (m : RxMatches) (s : Int) : Int :=
  if m.out_of_scope = true ∧ 7 ≤ s ∧ m.strict = false then min s 6 else s

/-- The second hard gate: a score ≥ 9 without strict scope is forced to 6. -/
def strict_gate (m : RxMatches) (t : Int) : Int :=
  if 9 ≤ t ∧ m.strict = false then 6 else t

/-- Both gates of `regex_score`, in source order. -/
def gate_pass (m : RxMatches) (s : Int) : Int := strict_gate m (oos_gate m s)

/-- Embedding of `regex_score` (tools/scoring.py): ratchet up through the
high-signal rules, clamp down through the demotions, apply the two gates,
then clamp into [1, 10] via `max(1, min(10, score))`. -/
def regex_score (m : RxMatches) : Int :=
  max 1 (min 10 (gate_pass m (low_pass m (high_pass m))))

/-- Sort key used by nodes/score.py and nodes/review.py:
`x.get("llm_score", 0)`. -/
def llm_score_of (it : Item) : Int := it.llm_score.getD 0

/-- Sort key used by nodes/prefilter.py: `x.get("regex_score", 0)`. -/
def regex_key (it : Item) : Int := it.regex_score.getD 0

/-- Stable descending insertion: `x` is placed before the first element whose
key is not larger, so elements with equal keys keep their original relative
order.  This models Python `list.sort(key=..., reverse=True)`, which is
stable. -/
def insert_desc (key : Item → Int) (x : Item) : List Item → List Item
  | [] => [x]
  | y :: ys => if key x < key y then y :: insert_desc key x ys else x :: y :: ys

/-- Stable descending sort by `key`; model of Python's stable
`sort(key=..., reverse=True)`. -/
def sort_desc (key : Item → Int) : List Item → List Item
  | [] => []
  | x :: xs => insert_desc key x (sort_desc key xs)

/-- Stage 2 of nodes/prefilter.py after the scope filter: dedup partition
then `to_score.sort(key=lambda x: x.get("regex_score", 0), reverse=True)`. -/
def prefilter_order (kept : List Item) (history : History) : List Item × List Item :=
  let ts := filter_seen kept history
  (sort_desc regex_key ts.1, ts.2)

/-- Alert derivation used in nodes/score.py and nodes/review.py:
`[x for x in scored if x.get("llm_score", 0) >= 9]`. -/
def compute_alerts (scored : List Item) : List Item :=
  scored.filter (fun x => decide (9 ≤ llm_score_of x))

/-- The structured judgment returned by the semantic scoring collaborator
(`parse_json` result with the defaults nodes/score.py applies via `.get`). -/
structure AssessResult where
  score : Int := 4
  category : String := "unknown"
  assessment : String := ""
  vaporware : Bool := false
deriving DecidableEq

/-- One iteration of the scoring loop in nodes/score.py: on success copy the
judgment onto the item; on failure append the error to the run-level error
list and fall back to the deterministic score with the "error" category
sentinel and the message as assessment. -/
def score_step (assess : Nat → Item → Except String AssessResult)
    (i : Nat) (item : Item) (errs : List String) : Item × List String :=
  match assess i item with
  | Except.ok r =>
    ({ item with llm_score := some r.score, category := some r.category,
                 assessment := some r.assessment, vaporware := r.vaporware }, errs)
  | Except.error e =>
    ({ item with llm_score := some (item.regex_score.getD 4),
                 category := some "error",
                 assessment := some ("Scoring failed: " ++ e),
                 vaporware := false },
     errs ++ ["Score item " ++ toString i ++ ": " ++ e])

/-- The scoring loop of nodes/score.py over the pre-filtered items,
threading the item index and the run-level error list. -/
def score_loop (assess : Nat → Item → Except String AssessResult) :
    Nat → List Item → List String → List Item × List String
  | _, [], errs => ([], errs)
  | i, item :: rest, errs =>
    let st := score_step assess i item errs
    let r := score_loop assess (i + 1) rest st.2
    (st.1 :: r.1, r.2)

/-- Tail of nodes/score.py (lines 89-92): sort the scored set descending by
llm score and recompute the alert set from scratch. -/
def score_node_final (scored : List Item) : List Item × List Item :=
  let s := sort_desc llm_score_of scored
  (s, compute_alerts s)

/-- One reviewer adjustment proposal (`score_adjustments` element with the
defaults nodes/review.py applies via `.get`). -/
structure Adjustment where
  title_snippet : String := ""
  adjusted_score : Option Int := none
  reason : String := ""
deriving DecidableEq

/-- The match test of nodes/review.py:
`snippet.lower() in item.get("title", "").lower()`. -/
def matches_snippet (snippet : String) (it : Item) : Bool :=
  chSub (lowerStr snippet).data (lowerStr it.title).data

/-- The inner loop of the adjustment pass in nodes/review.py: walk the scored
list in current order and rewrite the first item whose title contains the
fragment, recording the previous score in `llm_score_original` (the code's
`"?"` placeholder for an absent llm_score is modeled as `none`).  The loop
`break`s after the first match; it does not test `adjusted_by_reviewer`. -/
def adjust_first (l : List Item) (snippet : String) (ns : Int) (reason : String) : List Item :=
  match l with
  | [] => []
  | it :: rest =>
    if matches_snippet snippet it then
      { it with llm_score := some ns,
                llm_score_original := it.llm_score,
                adjusted_by_reviewer := true,
                adjustment_reason := some reason } :: rest
    else it :: adjust_first rest snippet ns reason

/-- One adjustment of the outer loop in nodes/review.py: skipped when the
fragment is empty or the new score is absent
(`if snippet and new_score is not None`). -/
def apply_one (items : List Item) (adj : Adjustment) : List Item :=
  match adj.adjusted_score with
  | none => items
  | some ns =>
    if adj.title_snippet = "" then items
    else adjust_first items adj.title_snippet ns adj.reason

/-- The full adjustment pass of nodes/review.py. -/
def apply_adjustments (items : List Item) (adjs : List Adjustment) : List Item :=
  adjs.foldl apply_one items

/-- Tail of the review node (nodes/review.py lines 109-111): after applying
the adjustments, re-sort descending by (possibly revised) llm score and
recompute the alert set from scratch. -/
def review_node_final (scored : List Item) (adjs : List Adjustment) : List Item × List Item :=
  let s := sort_desc llm_score_of (apply_adjustments scored adjs)
  (s, compute_alerts s)

/-- Per-source yield statistics (tools/sources.py `_empty_stats` shape). -/
structure SourceStats where
  runs : Nat := 0
  total_fetched : Nat := 0
  in_scope_count : Nat := 0
  high_score_count : Nat := 0
  last_hit_date : Option String := none
  last_run_date : Option String := none
deriving DecidableEq

/-- One source registry entry (tools/sources.py). -/
structure Source where
  id : String := ""
  name : String := ""
  category : String := ""
  type_ : String := ""
  url : String := ""
  enabled : Bool := true
  curated : Bool := false
  discovered_date : Option String := none
  stats : SourceStats := {}
deriving DecidableEq

/-- The source registry document (tools/sources.py). -/
structure Registry where
  max_sources : Nat := 40
  created : Option String := none
  last_pruned : Option String := none
  sources : List Source := []
deriving DecidableEq

/-- The body of the `prune_cold_sources` loop (tools/sources.py) for one
source: curated or already-disabled sources are skipped; an enabled
discovered source whose `last_hit_date` is `None` or lexicographically
before the cutoff is disabled.  The Boolean reports whether this source was
newly disabled.  `cutoff` is `(today - cold_days).isoformat()`. -/
def prune_one (cutoff : String) (s : Source) : Source × Bool :=
  if s.curated = true then (s, false)
  else if s.enabled = false then (s, false)
  else
    match s.stats.last_hit_date with
    | none => ({ s with enabled := false }, true)
    | some d => if ltStr d cutoff then ({ s with enabled := false }, true) else (s, false)

/-- Embedding of `prune_cold_sources` (tools/sources.py): apply `prune_one`
to every source in place, count the newly disabled ones, and stamp
`last_pruned` when the count is nonzero.  Returns (registry, pruned count). -/
def prune_cold_sources (today cutoff : String) (r : Registry) : Registry × Nat :=
  let results := r.sources.map (prune_one cutoff)
  let pruned := (results.filter (fun p => p.2)).length
  ({ r with sources := results.map (fun p => p.1),
            last_pruned := if pruned ≠ 0 then some today else r.last_pruned },
   pruned)

/-- The fresh entry `add_discovered_source` appends (tools/sources.py). -/
def new_discovered (today sid nm url cat ty : String) : Source :=
  { id := sid, name := nm, category := cat, type_ := ty, url := url,
    enabled := true, curated := false, discovered_date := some today, stats := {} }

/-- Embedding of `add_discovered_source` (tools/sources.py): reject known
ids; when the enabled count is at or above the cap, run a prune pass first
(whose effect on the registry persists either way) and only append when the
prune freed capacity.  Returns (registry, added?). -/
def add_discovered_source (today cutoff : String) (r : Registry)
    (sid nm url cat ty : String) : Registry × Bool :=
  if sid ∈ r.sources.map (fun s => s.id) then (r, false)
  else
    let enabledCount := (r.sources.filter (fun s => s.enabled)).length
    if enabledCount < r.max_sources then
      ({ r with sources := r.sources ++ [new_discovered today sid nm url cat ty] }, true)
    else
      let pr := prune_cold_sources today cutoff r
      if (r.max_sources : Int) ≤ (enabledCount : Int) - (pr.2 : Int) then (pr.1, false)
      else ({ pr.1 with sources := pr.1.sources ++ [new_discovered today sid nm url cat ty] }, true)

/-! Helper lemmas about the embedded primitives. -/

theorem str_data_append (a b : String) : (a ++ b).data = a.data ++ b.data := by
  cases a
  cases b
  rfl

theorem chPre_refl_append (l t : List Char) : chPre l (l ++ t) = true := by
  induction l with
  | nil => rfl
  | cons a as ih => simp [chPre, ih]

theorem chSub_of_append (a mid b : List Char) : chSub mid (a ++ (mid ++ b)) = true := by
  induction a with
  | nil =>
    cases mid with
    | nil =>
      cases b with
      | nil => rfl
      | cons x xs => simp [chSub, chPre]
    | cons m ms =>
      have h : chPre (m :: ms) ((m :: ms) ++ b) = true := chPre_refl_append (m :: ms) b
      simp only [List.cons_append] at h
      simp [chSub, h]
  | cons x xs ih => simp [chSub, ih]

theorem chSub_of_append_right (a mid : List Char) : chSub mid (a ++ mid) = true := by
  have h := chSub_of_append a mid []
  simpa using h

theorem hfind_hset_self (h : History) (k : String) (v : HistEntry) :
    hfind (hset h k v) k = some v := by
  induction h with
  | nil => simp [hset, hfind]
  | cons p rest ih =>
    obtain ⟨k', v'⟩ := p
    by_cases hk : k' = k
    · simp [hset, hk, hfind]
    · simp [hset, hk, hfind, ih]

theorem insert_desc_perm (key : Item → Int) (x : Item) (l : List Item) :
    List.Perm (insert_desc key x l) (x :: l) := by
  induction l with
  | nil => exact List.Perm.refl _
  | cons y ys ih =>
    by_cases h : key x < key y
    · simp only [insert_desc, if_pos h]
      exact List.Perm.trans (List.Perm.cons y ih) (List.Perm.swap x y ys)
    · simp only [insert_desc, if_neg h]
      exact List.Perm.refl _

theorem sort_desc_perm (key : Item → Int) (l : List Item) :
    List.Perm (sort_desc key l) l := by
  induction l with
  | nil => exact List.Perm.refl _
  | cons x xs ih =>
    exact List.Perm.trans (insert_desc_perm key x (sort_desc key xs)) (List.Perm.cons x ih)

theorem mem_sort_desc (key : Item → Int) (l : List Item) (x : Item) :
    x ∈ sort_desc key l ↔ x ∈ l :=
  (sort_desc_perm key l).mem_iff

theorem insert_desc_pairwise (key : Item → Int) (x : Item) (l : List Item)
    (hp : l.Pairwise (fun a b => key b ≤ key a)) :
    (insert_desc key x l).Pairwise (fun a b => key b ≤ key a) := by
  induction l with
  | nil => simp [insert_desc]
  | cons y ys ih =>
    rw [List.pairwise_cons] at hp
    obtain ⟨hy, hys⟩ := hp
    by_cases h : key x < key y
    · simp only [insert_desc, if_pos h]
      rw [List.pairwise_cons]
      refine ⟨?_, ih hys⟩
      intro z hz
      rcases List.mem_cons.mp ((insert_desc_perm key x ys).mem_iff.mp hz) with rfl | hz2
      · exact le_of_lt h
      · exact hy z hz2
    · simp only [insert_desc, if_neg h]
      rw [List.pairwise_cons]
      refine ⟨?_, ?_⟩
      · intro z hz
        rcases List.mem_cons.mp hz with rfl | hz2
        · exact Int.not_lt.mp h
        · exact le_trans (hy z hz2) (Int.not_lt.mp h)
      · rw [List.pairwise_cons]
        exact ⟨hy, hys⟩

theorem sort_desc_pairwise (key : Item → Int) (l : List Item) :
    (sort_desc key l).Pairwise (fun a b => key b ≤ key a) := by
  induction l with
  | nil => simp [sort_desc]
  | cons x xs ih => exact insert_desc_pairwise key x (sort_desc key xs) ih

theorem insert_desc_filter (key : Item → Int) (x : Item) (k : Int) (l : List Item) :
    (insert_desc key x l).filter (fun z => decide (key z = k)) =
      if key x = k then x :: l.filter (fun z => decide (key z = k))
      else l.filter (fun z => decide (key z = k)) := by
  induction l with
  | nil => by_cases hx : key x = k <;> simp [insert_desc, List.filter, hx]
  | cons y ys ih =>
    by_cases h : key x < key y
    · simp only [insert_desc, if_pos h]
      by_cases hy : key y = k
      · by_cases hx : key x = k
        · exfalso
          omega
        · simp [List.filter_cons, hy, hx, ih]
      · by_cases hx : key x = k <;> simp [List.filter_cons, hy, hx, ih]
    · simp only [insert_desc, if_neg h]
      by_cases hx : key x = k <;> by_cases hy : key y = k <;>
        simp [List.filter_cons, hx, hy]

theorem sort_desc_filter (key : Item → Int) (k : Int) (l : List Item) :
    (sort_desc key l).filter (fun z => decide (key z = k)) =
      l.filter (fun z => decide (key z = k)) := by
  induction l with
  | nil => rfl
  | cons x xs ih =>
    by_cases hx : key x = k <;>
      simp [sort_desc, insert_desc_filter, List.filter_cons, hx, ih]

theorem filter_seen_fst_sublist (history : History) (items : List Item) :
    List.Sublist (filter_seen items history).1
      (items.map (fun i => (filter_seen_step history i).1)) := by
  induction items with
  | nil => simp [filter_seen]
  | cons it rest ih =>
    by_cases h : (filter_seen_step history it).2 = true
    · simp only [filter_seen, List.map, h, if_pos]
      exact List.Sublist.cons₂ _ ih
    · simp only [filter_seen, List.map]
      rw [if_neg h]
      exact List.Sublist.cons _ ih

theorem length_filter_map {α β : Type} (f : α → β) (p : β → Bool) (l : List α) :
    ((l.map f).filter p).length = (l.filter (fun a => p (f a))).length := by
  induction l with
  | nil => rfl
  | cons a as ih =>
    by_cases h : p (f a) = true <;> simp [List.filter_cons, h, ih]

theorem rstep_le {s v X : Int} (c : Bool) (hs : s ≤ X) (hv : v ≤ X) : rstep c v s ≤ X := by
  unfold rstep
  split
  · exact max_le hs hv
  · exact hs

theorem rstep_ge {s Y : Int} (c : Bool) (v : Int) (hs : Y ≤ s) : Y ≤ rstep c v s := by
  unfold rstep
  split
  · exact le_trans hs (le_max_left _ _)
  · exact hs

theorem rstep_hit (v : Int) {c : Bool} (hc : c = true) (s : Int) : v ≤ rstep c v s := by
  unfold rstep
  rw [if_pos hc]
  exact le_max_right _ _

theorem dstep_cases (c : Bool) (v s : Int) : dstep c v s = s ∨ dstep c v s ≤ v := by
  unfold dstep
  split
  · exact Or.inr (min_le_right _ _)
  · exact Or.inl rfl

theorem high_pass_nine (m : RxMatches)
    (h : m.fih = true ∨ m.pivotal = true ∨ m.fda_ide = true ∨ m.human_implant = true) :
    9 ≤ high_pass m := by
  unfold high_pass
  rcases h with h | h | h | h
  · iterate 7 (apply rstep_ge)
    exact le_trans (by norm_num) (rstep_hit 10 h 4)
  · iterate 6 (apply rstep_ge)
    exact le_trans (by norm_num) (rstep_hit 10 h _)
  · iterate 5 (apply rstep_ge)
    exact le_trans (by norm_num) (rstep_hit 10 h _)
  · iterate 4 (apply rstep_ge)
    exact rstep_hit 9 h _

theorem low_pass_cases (m : RxMatches) (s : Int) :
    low_pass m s = s ∨ low_pass m s ≤ 2 := by
  unfold low_pass
  rcases dstep_cases (m.wearable && !m.bci_term) 2
      (dstep m.marketing 2 (dstep m.eeg_headset 2 s)) with h1 | h1
  · rw [h1]
    rcases dstep_cases m.marketing 2 (dstep m.eeg_headset 2 s) with h2 | h2
    · rw [h2]
      exact dstep_cases m.eeg_headset 2 s
    · exact Or.inr h2
  · exact Or.inr h1

set_option maxRecDepth 8000

/-! Claim theorems. -/

/-- C5: the content hash is a pure function of the whitespace-trimmed,
lower-cased (title, url) pair — any two inputs that agree after trimming and
lower-casing hash identically, and identical inputs always produce the
identical hash. -/
theorem item_hash_normalized (t1 u1 t2 u2 : String)
    (ht : lowerStr (trimStr t1) = lowerStr (trimStr t2))
    (hu : lowerStr (trimStr u1) = lowerStr (trimStr u2)) :
    item_hash t1 u1 = item_hash t2 u2 := by
  unfold item_hash
  rw [ht, hu]

/-- C5 witness: the spec's own example, hash("Foo ", "X") = hash("foo", "x"). -/
theorem item_hash_normalized_witness : item_hash "Foo " "X" = item_hash "foo" "x" :=
  item_hash_normalized "Foo " "X" "foo" "x" (by decide) (by decide)

/-- C1: `filter_seen` places each item by its history entry — an absent hash
goes to to_score; a stored score below the threshold (7) goes to skipped with
a reason string that contains the prior score and last-seen date; a stored
score at or above the threshold goes to to_score annotated with the prior
score and category. -/
theorem filter_seen_placement (history : History) (item : Item) (rest : List Item) :
    (hfind history (item_hash item.title item.url) = none →
      filter_seen (item :: rest) history =
        ({ item with hash := some (item_hash item.title item.url) } ::
           (filter_seen rest history).1,
         (filter_seen rest history).2)) ∧
    (∀ prior, hfind history (item_hash item.title item.url) = some prior →
      RE_EVALUATE_THRESHOLD ≤ prior.score →
      filter_seen (item :: rest) history =
        ({ item with
           hash := some (item_hash item.title item.url),
           prior_score := some prior.score,
           prior_category := some prior.category } :: (filter_seen rest history).1,
         (filter_seen rest history).2)) ∧
    (∀ prior, hfind history (item_hash item.title item.url) = some prior →
      prior.score < RE_EVALUATE_THRESHOLD →
      (filter_seen (item :: rest) history =
        ((filter_seen rest history).1,
         { item with
           hash := some (item_hash item.title item.url),
           skipped_reason := some (skip_reason prior) } :: (filter_seen rest history).2) ∧
       chSub (toString prior.score).data (skip_reason prior).data = true ∧
       chSub prior.last_seen.data (skip_reason prior).data = true)) := by
  refine ⟨?_, ?_, ?_⟩
  · intro h0
    simp [filter_seen, filter_seen_step, h0]
  · intro prior hp hge
    simp [filter_seen, filter_seen_step, hp, if_pos hge]
  · intro prior hp hlt
    refine ⟨?_, ?_, ?_⟩
    · have hnot : ¬ RE_EVALUATE_THRESHOLD ≤ prior.score := by omega
      simp [filter_seen, filter_seen_step, hp, if_neg hnot]
    · unfold skip_reason
      rw [str_data_append, str_data_append, str_data_append, List.append_assoc,
        List.append_assoc]
      exact chSub_of_append _ _ _
    · unfold skip_reason
      rw [str_data_append]
      exact chSub_of_append_right _ _

def w1_item : Item := { title := "T", url := "U" }

def w1_entry : HistEntry :=
  { title := "T", score := 5, category := "methods",
    first_seen := "2026-01-01", last_seen := "2026-01-01", run_count := 1 }

def w1_hist : History := [(item_hash "T" "U", w1_entry)]

/-- C1 witness: a previously-seen item with stored score 5 is skipped, with
the annotated reason containing the prior score and date. -/
theorem filter_seen_placement_witness :
    filter_seen [w1_item] w1_hist =
      ([], [{ w1_item with
              hash := some (item_hash w1_item.title w1_item.url),
              skipped_reason := some (skip_reason w1_entry) }]) ∧
    chSub (toString w1_entry.score).data (skip_reason w1_entry).data = true ∧
    chSub w1_entry.last_seen.data (skip_reason w1_entry).data = true :=
  (filter_seen_placement w1_hist w1_item []).2.2 w1_entry (by decide) (by decide)

/-- C4: `update_history` upserts each scored item — a new hash gets an entry
with first_seen = last_seen = today and run_count 1; an existing entry has
its score, category and last_seen overwritten and run_count incremented; a
same-day second application with the unchanged item yields the same entry
except run_count, which is one larger. -/
theorem update_history_upsert (today : String) (history : History) (item : Item) :
    (hfind history (hash_key_of item) = none →
      hfind (update_history today history [item]) (hash_key_of item) =
        some { title := item.title.take 100, score := score_field_of item,
               category := category_of item, first_seen := today,
               last_seen := today, run_count := 1 }) ∧
    (∀ e, hfind history (hash_key_of item) = some e →
      hfind (update_history today history [item]) (hash_key_of item) =
        some { e with
               score := score_field_of item,
               category := category_of item,
               last_seen := today,
               run_count := e.run_count + 1 }) ∧
    (∀ e1, hfind (update_history today history [item]) (hash_key_of item) = some e1 →
      hfind (update_history today (update_history today history [item]) [item])
          (hash_key_of item) =
        some { e1 with run_count := e1.run_count + 1 }) := by
  refine ⟨?_, ?_, ?_⟩
  · intro h0
    simp [update_history, update_history_one, h0, hfind_hset_self]
  · intro e he
    simp [update_history, update_history_one, he, hfind_hset_self]
  · intro e1 h1
    have hupd : ∀ (h2 : History) (e : HistEntry), hfind h2 (hash_key_of item) = some e →
        hfind (update_history_one today h2 item) (hash_key_of item) =
          some { e with
                 score := score_field_of item,
                 category := category_of item,
                 last_seen := today,
                 run_count := e.run_count + 1 } := by
      intro h2 e he
      simp only [update_history_one, he, hfind_hset_self]
    rw [show update_history today history [item] = update_history_one today history item
        from rfl] at h1 ⊢
    rw [show update_history today (update_history_one today history item) [item] =
          update_history_one today (update_history_one today history item) item from rfl]
    rw [hupd _ e1 h1]
    cases hh : hfind history (hash_key_of item) with
    | none =>
      simp only [update_history_one, hh, hfind_hset_self] at h1
      injection h1 with h1e
      rw [← h1e]
    | some e =>
      simp only [update_history_one, hh, hfind_hset_self] at h1
      injection h1 with h1e
      rw [← h1e]

def w4_item : Item := { title := "T4", url := "U4", llm_score := some 8, category := some "c" }

/-- C4 witness: applying the upsert twice on the same day to the same item
bumps only run_count. -/
theorem update_history_upsert_witness :
    hfind (update_history "2026-10-12" (update_history "2026-10-12" [] [w4_item]) [w4_item])
        (hash_key_of w4_item) =
      some { title := "T4", score := 8, category := "c", first_seen := "2026-10-12",
             last_seen := "2026-10-12", run_count := 2 } :=
  (update_history_upsert "2026-10-12" [] w4_item).2.2
    { title := "T4", score := 8, category := "c", first_seen := "2026-10-12",
      last_seen := "2026-10-12", run_count := 1 } (by decide)

def rxCE : RxMatches := { microstim := true }

/-- C2 counterexample: the claim says any input whose text fails the
strict-scope test scores at most 6, but the weight-7 rule alone (for example
the text "closed-loop", which matches only the microstimulation/closed-loop
pattern and no strict-scope pattern) yields a final score of 7. -/
theorem regex_score_not_strict_can_exceed_six :
    rxCE.strict = false ∧ regex_score rxCE = 7 ∧ ¬ regex_score rxCE ≤ 6 := by
  decide

/-- C2 amended: the result of `regex_score` is always in [1, 10]; without a
strict-scope match the score can never reach 9 or 10 (it is at most 8); and
without a strict-scope match any input that fired a rule of weight 9 or 10
scores at most 6. -/
theorem regex_score_strict_gate (m : RxMatches) :
    (1 ≤ regex_score m ∧ regex_score m ≤ 10) ∧
    (m.strict = false → regex_score m ≤ 8) ∧
    (m.strict = false →
      (m.fih = true ∨ m.pivotal = true ∨ m.fda_ide = true ∨ m.human_implant = true) →
      regex_score m ≤ 6) := by
  unfold regex_score
  refine ⟨⟨le_max_left 1 _, max_le (by norm_num) (min_le_left _ _)⟩, ?_, ?_⟩
  · intro hstrict
    have hu8 : gate_pass m (low_pass m (high_pass m)) ≤ 8 := by
      unfold gate_pass strict_gate
      by_cases h9 : 9 ≤ oos_gate m (low_pass m (high_pass m)) ∧ m.strict = false
      · rw [if_pos h9]
        norm_num
      · rw [if_neg h9]
        have hn : ¬ 9 ≤ oos_gate m (low_pass m (high_pass m)) :=
          fun hc => h9 ⟨hc, hstrict⟩
        omega
    exact max_le (by norm_num) (le_trans (min_le_right _ _) hu8)
  · intro hstrict hrule
    have h9 : 9 ≤ high_pass m := high_pass_nine m hrule
    have hu6 : gate_pass m (low_pass m (high_pass m)) ≤ 6 := by
      unfold gate_pass strict_gate oos_gate
      rcases low_pass_cases m (high_pass m) with hl | hl
      · by_cases hos : m.out_of_scope = true ∧ 7 ≤ low_pass m (high_pass m) ∧
            m.strict = false
        · rw [if_pos hos]
          have hmin : min (low_pass m (high_pass m)) 6 ≤ 6 := min_le_right _ _
          have hn : ¬ (9 ≤ min (low_pass m (high_pass m)) 6 ∧ m.strict = false) := by
            intro hc
            have := hc.1
            omega
          rw [if_neg hn]
          exact hmin
        · rw [if_neg hos]
          have h9' : 9 ≤ low_pass m (high_pass m) := by
            rw [hl]
            exact h9
          rw [if_pos ⟨h9', hstrict⟩]
      · by_cases hos : m.out_of_scope = true ∧ 7 ≤ low_pass m (high_pass m) ∧
            m.strict = false
        · exfalso
          obtain ⟨_, h7, _⟩ := hos
          omega
        · rw [if_neg hos]
          have hn : ¬ (9 ≤ low_pass m (high_pass m) ∧ m.strict = false) := by
            intro hc
            obtain ⟨hc1, _⟩ := hc
            omega
          rw [if_neg hn]
          omega
    exact max_le (by norm_num) (le_trans (min_le_right _ _) hu6)

def rxW : RxMatches := { fih := true }

/-- C2 witness: a first-in-human match (weight 10) without strict scope is
forced down to at most 6. -/
theorem regex_score_strict_gate_witness : regex_score rxW ≤ 6 :=
  (regex_score_strict_gate rxW).2.2 rfl (Or.inl rfl)

/-- C3: after initial scoring and again after review adjustment, the alert
set is exactly the subset of the (re-sorted) scored set whose current score
is at least 9; an adjustment that brings an item's score to 9 puts it into
the recomputed alert set, and an item whose post-adjustment score is 7
cannot be in it. -/
theorem alerts_recomputed (scored : List Item) (adjs : List Adjustment) :
    (∀ x, x ∈ (score_node_final scored).2 ↔
      x ∈ (score_node_final scored).1 ∧ 9 ≤ llm_score_of x) ∧
    (∀ x, x ∈ (review_node_final scored adjs).2 ↔
      x ∈ (review_node_final scored adjs).1 ∧ 9 ≤ llm_score_of x) ∧
    (∀ x, x ∈ apply_adjustments scored adjs → llm_score_of x = 9 →
      x ∈ (review_node_final scored adjs).2) ∧
    (∀ x, llm_score_of x = 7 → x ∉ (review_node_final scored adjs).2) := by
  refine ⟨?_, ?_, ?_, ?_⟩
  · intro x
    simp [score_node_final, compute_alerts, List.mem_filter]
  · intro x
    simp [review_node_final, compute_alerts, List.mem_filter]
  · intro x hx h9
    simp only [review_node_final, compute_alerts, List.mem_filter]
    refine ⟨(mem_sort_desc _ _ _).mpr hx, ?_⟩
    rw [h9]
    decide
  · intro x h7 hx
    simp only [review_node_final, compute_alerts, List.mem_filter] at hx
    have := hx.2
    rw [h7] at this
    exact absurd (of_decide_eq_true this) (by norm_num)

def w3_item : Item := { title := "Low item", llm_score := some 5 }

def w3_adj : Adjustment := { title_snippet := "low", adjusted_score := some 9, reason := "up" }

/-- C3 witness: raising a score-5 item to 9 by a review adjustment places it
in the recomputed alert set. -/
theorem alerts_recomputed_witness :
    { w3_item with
      llm_score := some 9,
      llm_score_original := some 5,
      adjusted_by_reviewer := true,
      adjustment_reason := some "up" } ∈ (review_node_final [w3_item] [w3_adj]).2 :=
  (alerts_recomputed [w3_item] [w3_adj]).2.2.1 _ (by decide) (by decide)

/-- C9: the triage stage returns the to-score set sorted descending by
deterministic (regex) score; the sort is a permutation of the dedup output
and is stable — for every score value, the subsequence of items with that
score is unchanged — and the dedup output itself preserves the original
fetch order (it is a sublist of the annotated input). -/
theorem prefilter_sorted_stable (kept : List Item) (history : History) :
    ((prefilter_order kept history).1.Pairwise
      (fun a b => regex_key b ≤ regex_key a)) ∧
    (List.Perm (prefilter_order kept history).1 (filter_seen kept history).1) ∧
    (∀ k : Int,
      (prefilter_order kept history).1.filter (fun z => decide (regex_key z = k)) =
        (filter_seen kept history).1.filter (fun z => decide (regex_key z = k))) ∧
    (List.Sublist (filter_seen kept history).1
      (kept.map (fun i => (filter_seen_step history i).1))) := by
  refine ⟨?_, ?_, ?_, ?_⟩
  · exact sort_desc_pairwise regex_key _
  · exact sort_desc_perm regex_key _
  · intro k
    exact sort_desc_filter regex_key k _
  · exact filter_seen_fst_sublist history kept

/-- C6: a semantic-scoring failure on one item does not abort the batch —
the loop output has one scored item per input item; any item whose call
failed is present at its position with the deterministic (regex) score as
its score, the "error" sentinel category, the error message recorded in the
assessment, and the error appended to the run-level error list (which is
preserved). -/
theorem score_loop_error_containment
    (assess : Nat → Item → Except String AssessResult) (i : Nat)
    (items : List Item) (errs : List String) :
    ((score_loop assess i items errs).1.length = items.length) ∧
    (∀ s ∈ errs, s ∈ (score_loop assess i items errs).2) ∧
    (∀ j it e, items[j]? = some it → assess (i + j) it = Except.error e →
      ((score_loop assess i items errs).1[j]? =
        some { it with
               llm_score := some (it.regex_score.getD 4),
               category := some "error",
               assessment := some ("Scoring failed: " ++ e),
               vaporware := false } ∧
       ("Score item " ++ toString (i + j) ++ ": " ++ e) ∈
         (score_loop assess i items errs).2)) := by
  induction items generalizing i errs with
  | nil =>
    refine ⟨rfl, ?_, ?_⟩
    · intro s hs
      simpa [score_loop] using hs
    · intro j it e hj
      simp at hj
  | cons item rest ih =>
    have IH := ih (i + 1) (score_step assess i item errs).2
    refine ⟨?_, ?_, ?_⟩
    · simp only [score_loop, List.length_cons]
      rw [IH.1]
    · intro s hs
      have hstep : s ∈ (score_step assess i item errs).2 := by
        unfold score_step
        cases hass : assess i item with
        | ok r => exact hs
        | error e => exact List.mem_append_left _ hs
      simpa [score_loop] using IH.2.1 s hstep
    · intro j it e hj hass
      cases j with
      | zero =>
        rw [List.getElem?_cons_zero] at hj
        injection hj with hj
        subst hj
        rw [Nat.add_zero] at hass
        constructor
        · simp [score_loop, score_step, hass]
        · have hmem : ("Score item " ++ toString i ++ ": " ++ e) ∈
              (score_step assess i item errs).2 := by
            unfold score_step
            rw [hass]
            exact List.mem_append_right _ (List.mem_singleton_self _)
          have := IH.2.1 _ hmem
          simpa [score_loop] using this
      | succ j' =>
        rw [List.getElem?_cons_succ] at hj
        have harith : i + (j' + 1) = (i + 1) + j' := by omega
        rw [harith] at hass ⊢
        have hres := IH.2.2 j' it e hj hass
        constructor
        · simpa [score_loop] using hres.1
        · simpa [score_loop] using hres.2

def w6_item : Item := { title := "w6", regex_score := some 6 }

def w6_assess : Nat → Item → Except String AssessResult := fun _ _ => Except.error "boom"

/-- C6 witness: a failing semantic call leaves the item in the scored set
with the fallback fields and pushes the error message onto the error list. -/
theorem score_loop_error_containment_witness :
    ((score_loop w6_assess 0 [w6_item] []).1[0]? =
      some { w6_item with
             llm_score := some (w6_item.regex_score.getD 4),
             category := some "error",
             assessment := some ("Scoring failed: " ++ "boom"),
             vaporware := false } ∧
     ("Score item " ++ toString (0 + 0) ++ ": " ++ "boom") ∈
       (score_loop w6_assess 0 [w6_item] []).2) :=
  (score_loop_error_containment w6_assess 0 [w6_item] []).2.2 0 w6_item "boom" rfl rfl

def cexA : Item := { title := "Alpha Beta", llm_score := some 5 }

def cexB : Item := { title := "Beta Gamma", llm_score := some 5 }

def cexAdj1 : Adjustment := { title_snippet := "Alpha", adjusted_score := some 8, reason := "r1" }

def cexAdj2 : Adjustment := { title_snippet := "Beta", adjusted_score := some 9, reason := "r2" }

/-- C7 counterexample: with items ["Alpha Beta" (score 5), "Beta Gamma"
(score 5)] and adjustments [("Alpha", 8), ("Beta", 9)], the claim says the
second adjustment must go to the first *not-yet-adjusted* title containing
"beta" — "Beta Gamma" — and that the first item's original score 5 stays
preserved.  The code instead re-adjusts "Alpha Beta" (overwriting its stored
original with 8) and leaves "Beta Gamma" untouched even though its title
contains the fragment. -/
theorem review_adjust_counterexample :
    apply_adjustments [cexA, cexB] [cexAdj1, cexAdj2] =
      [{ cexA with
         llm_score := some 9,
         llm_score_original := some 8,
         adjusted_by_reviewer := true,
         adjustment_reason := some "r2" }, cexB] ∧
    cexB.adjusted_by_reviewer = false ∧
    matches_snippet cexAdj2.title_snippet cexB = true := by
  decide

/-- C7 amended: each adjustment with a nonempty fragment and a present score
is applied to the *first* item in current order whose title contains the
fragment case-insensitively — regardless of whether that item was already
adjusted; that item's score is overwritten, its previous score is stored in
`llm_score_original` (possibly overwriting an earlier adjustment's stored
original), the reason and adjusted marker are set, and all other items are
unchanged; with no matching item the list is unchanged. -/
theorem review_adjust_first_match (snippet : String) (ns : Int) (reason : String) :
    (∀ l, (∀ p ∈ l, matches_snippet snippet p = false) →
      adjust_first l snippet ns reason = l) ∧
    (∀ pre it post,
      (∀ p ∈ pre, matches_snippet snippet p = false) →
      matches_snippet snippet it = true →
      adjust_first (pre ++ it :: post) snippet ns reason =
        pre ++ ({ it with
                  llm_score := some ns,
                  llm_score_original := it.llm_score,
                  adjusted_by_reviewer := true,
                  adjustment_reason := some reason } :: post)) := by
  constructor
  · intro l
    induction l with
    | nil => intro _; rfl
    | cons p rest ih =>
      intro h
      have hp := h p (List.mem_cons_self p rest)
      simp only [adjust_first, hp]
      rw [if_neg (by simp [hp])]
      rw [ih (fun q hq => h q (List.mem_cons_of_mem p hq))]
  · intro pre
    induction pre with
    | nil =>
      intro it post _ hit
      simp only [List.nil_append, adjust_first, hit, if_pos]
    | cons p pre' ih =>
      intro it post hpre hit
      have hp := hpre p (List.mem_cons_self p pre')
      simp only [List.cons_append, adjust_first, List.append_eq]
      rw [if_neg (by simp [hp])]
      rw [ih it post (fun q hq => hpre q (List.mem_cons_of_mem p hq)) hit]

def w7_item : Item := { title := "Neural implant study", llm_score := some 8 }

/-- C7 witness: an adjustment rewrites the first (and only) matching item,
storing its previous score. -/
theorem review_adjust_first_match_witness :
    adjust_first ([] ++ w7_item :: []) "implant" 9 "justified" =
      [] ++ ({ w7_item with
               llm_score := some 9,
               llm_score_original := w7_item.llm_score,
               adjusted_by_reviewer := true,
               adjustment_reason := some "justified" } :: []) :=
  (review_adjust_first_match "implant" 9 "justified").2 [] w7_item [] (by simp) (by decide)

/-- C8: one prune call maps every source in place (nothing is deleted and
ids are preserved), leaves every curated source — in particular its enabled
flag — untouched, disables every enabled non-curated source whose last
in-scope hit is older than the cutoff, and returns exactly the number of
sources whose enabled flag it flipped. -/
theorem prune_cold_sources_spec (today cutoff : String) (r : Registry) :
    ((prune_cold_sources today cutoff r).1.sources =
      r.sources.map (fun s => (prune_one cutoff s).1)) ∧
    ((prune_cold_sources today cutoff r).1.sources.length = r.sources.length) ∧
    (∀ s : Source, s.curated = true → (prune_one cutoff s).1 = s) ∧
    (∀ s : Source, s.curated = false → s.enabled = true →
      ∀ d, s.stats.last_hit_date = some d → ltStr d cutoff = true →
        (prune_one cutoff s).1 = { s with enabled := false }) ∧
    (∀ s : Source, (prune_one cutoff s).1.id = s.id) ∧
    ((prune_cold_sources today cutoff r).2 =
      (r.sources.filter (fun s => (prune_one cutoff s).2)).length) ∧
    (∀ s : Source, (prune_one cutoff s).2 = true ↔
      (s.curated = false ∧ s.enabled = true ∧ (prune_one cutoff s).1.enabled = false)) := by
  refine ⟨?_, ?_, ?_, ?_, ?_, ?_, ?_⟩
  · simp [prune_cold_sources, List.map_map]
  · simp [prune_cold_sources, List.map_map]
  · intro s hc
    simp [prune_one, hc]
  · intro s hc he d hd hlt
    simp [prune_one, hc, he, hd, hlt]
  · intro s
    unfold prune_one
    by_cases hc : s.curated = true
    · simp [hc]
    · by_cases he : s.enabled = false
      · simp [hc, he]
      · cases hd : s.stats.last_hit_date with
        | none => simp [hc, he, hd]
        | some d =>
          by_cases hlt : ltStr d cutoff = true
          · simp [hc, he, hd, hlt]
          · simp [hc, he, hd, hlt]
  · simp only [prune_cold_sources]
    exact length_filter_map _ _ _
  · intro s
    unfold prune_one
    by_cases hc : s.curated = true
    · simp [hc]
    · by_cases he : s.enabled = false
      · simp [hc, he]
      · cases hd : s.stats.last_hit_date with
        | none => simp [hc, he]
        | some d =>
          by_cases hlt : ltStr d cutoff = true
          · simp [hc, he, hlt]
          · simp [hc, he, hlt]

def w8_source : Source :=
  { id := "d1", curated := false, enabled := true,
    stats := { last_hit_date := some "2025-01-01" } }

def w8_reg : Registry := { sources := [w8_source] }

/-- C8 witness: an enabled discovered source whose last hit predates the
cutoff is disabled by the prune pass. -/
theorem prune_cold_sources_spec_witness :
    (prune_one "2026-09-12" w8_source).1 = { w8_source with enabled := false } :=
  (prune_cold_sources_spec "2026-10-12" "2026-09-12" w8_reg).2.2.2.1 w8_source rfl rfl
    "2025-01-01" rfl (by decide)

/-- C10: the prune pass disables every enabled non-curated source whose
stats have no last-hit date at all — there is no grace window — and when
`add_discovered_source` is invoked at the enabled-source cap, the prune pass
it triggers disables every such source in the resulting registry
immediately. -/
theorem prune_disables_never_hit :
    (∀ (cutoff : String) (s : Source),
      s.curated = false → s.enabled = true → s.stats.last_hit_date = none →
      prune_one cutoff s = ({ s with enabled := false }, true)) ∧
    (∀ (today cutoff : String) (r : Registry) (sid nm url cat ty : String),
      sid ∉ r.sources.map (fun s => s.id) →
      r.max_sources ≤ (r.sources.filter (fun s => s.enabled)).length →
      ∀ s ∈ r.sources, s.curated = false → s.enabled = true →
        s.stats.last_hit_date = none →
        { s with enabled := false } ∈
          (add_discovered_source today cutoff r sid nm url cat ty).1.sources) := by
  constructor
  · intro cutoff s hc he hd
    simp [prune_one, hc, he, hd]
  · intro today cutoff r sid nm url cat ty hnot hcap s hs hc he hd
    have himg : { s with enabled := false } ∈ (prune_cold_sources today cutoff r).1.sources := by
      simp only [prune_cold_sources, List.map_map, List.mem_map, Function.comp]
      exact ⟨s, hs, by simp [prune_one, hc, he, hd]⟩
    simp only [add_discovered_source]
    rw [if_neg hnot]
    have hcount : ¬ ((r.sources.filter (fun s => s.enabled)).length < r.max_sources) := by
      omega
    rw [if_neg hcount]
    by_cases hfin : (r.max_sources : Int) ≤
        ((r.sources.filter (fun s => s.enabled)).length : Int) -
          ((prune_cold_sources today cutoff r).2 : Int)
    · rw [if_pos hfin]
      exact himg
    · rw [if_neg hfin]
      exact List.mem_append_left _ himg

def w10_source : Source := { id := "d2", curated := false, enabled := true }

def w10_reg : Registry := { max_sources := 1, sources := [w10_source] }

/-- C10 witness: adding a source at the cap prunes a never-productive
discovered source (no last-hit date) immediately, with no grace window. -/
theorem prune_disables_never_hit_witness :
    { w10_source with enabled := false } ∈
      (add_discovered_source "2026-10-12" "2026-09-12" w10_reg
        "new" "New" "u" "discovered" "rss").1.sources :=
  prune_disables_never_hit.2 "2026-10-12" "2026-09-12" w10_reg "new" "New" "u"
    "discovered" "rss" (by decide) (by decide) w10_source (by decide) rfl rfl rfl

end NewsHound
